import Mathlib

/-!
# Verification of the client-side load tester

Shallow embedding of the load-generation engine of the repository
(`src/pages/index.js` and the web worker `public/worker.js`), together with
proofs of the spec's claims about it.

Modelling conventions:
* JavaScript numbers that the code only ever uses as non-negative integers
  (counters, request counts, rates, millisecond durations) are `Nat`;
  values that may be negative or compared against negative operator input
  are `Int`.
* React state updates (`setRows`, `setSummary`, `setRunning`) are modelled
  as a state transformer on a `HomeState` record; functional updaters
  (`setRows(prev => …)`, `setSummary(s => …)`) act on the live state. A
  plain read of `summary` inside `pushRow` does not: the `onmessage`
  handler that calls `pushRow` is assigned once in `startTest`
  (index.js line 64) and never refreshed, so it closes over the `summary`
  value of the render in which Start was clicked. That frozen read is
  modelled as the run-constant `capturedSent` parameter of `pushRow`.
* Strings manipulated character-by-character (CSV rendering/escaping) are
  modelled as `List Char`; `String` fields are taken to their `.data`.
-/

/-- Hard global constant `MAX_REQS_PER_SEC` (index.js line 4). -/
def MAX_REQS_PER_SEC : Nat := 1000

/-- Hard global constant `MAX_TOTAL_REQS` (index.js line 5). -/
def MAX_TOTAL_REQS : Nat := 100000

/-- Hard global constant `MAX_CONCURRENCY` (index.js line 6). -/
def MAX_CONCURRENCY : Nat := 500

/-- A result row as produced by the worker (`worker.js` lines 31–54):
`{ timestamp, workerId, statusCode, timeMs, snippet, error }`.
`statusCode` is `none` for a transport-level failure (`null` in JS).
JS strings are modelled as `List Char`. -/
structure ResultRow where
  timestamp : List Char
  workerId : Nat
  statusCode : Option Nat
  timeMs : Nat
  snippet : List Char
  error : Bool
deriving DecidableEq, Repr

/-- The mutable UI state of `Home` that the load engine touches:
`rows`, `summary = { sent, errors }` and the `running` flag. -/
structure HomeState where
  rows : List ResultRow
  sent : Nat
  errors : Nat
  running : Bool
deriving DecidableEq, Repr

/-- The state right after `startTest` has reset everything
(index.js lines 44–47): empty buffer, zero counters, running. -/
def initState : HomeState :=
  { rows := [], sent := 0, errors := 0, running := true }

/-- `stopTest` (index.js lines 78–84): signals the workers and sets
`running` to `false`; it touches neither the buffer nor the counters. -/
def stopTest (s : HomeState) : HomeState :=
  { s with running := false }

/-- The buffer update inside `pushRow` (index.js lines 88–92):
`next = [r, ...prev]; if (next.length > 2000) next.pop()`. -/
def insertRow (r : ResultRow) (prev : List ResultRow) : List ResultRow :=
  let next := r :: prev
  if next.length > 2000 then next.dropLast else next

/-- `pushRow` (index.js lines 86–99): insert the row at the buffer head
(evicting the tail past 2000 entries), increment `sent`, increment
`errors` when `r.error`, then defensively invoke `stopTest` when
`summary.sent + 1 >= MAX_TOTAL_REQS` (index.js line 98). The buffer and
counter updates use functional updaters and see the live state, but the
`summary.sent` read on line 98 comes from the closure captured when
`startTest` ran (the `onmessage` handler, index.js line 64, is never
reassigned): it is the run-constant `capturedSent`, `0` on a fresh page,
and does not follow the live counter. There is also no guard on
`running`: a row is processed the same way whether or not the run has
been stopped. -/
def pushRow (capturedSent : Nat) (r : ResultRow) (s : HomeState) :
    HomeState :=
  let s1 : HomeState :=
    { s with
      rows := insertRow r s.rows
      sent := s.sent + 1
      errors := s.errors + (if r.error then 1 else 0) }
  if capturedSent + 1 ≥ MAX_TOTAL_REQS then stopTest s1 else s1

/-- Delivering a sequence of rows to `pushRow`, first element first, all
through the same start-time closure. -/
def pushRows (capturedSent : Nat) (rs : List ResultRow) (s : HomeState) :
    HomeState :=
  rs.foldl (fun st r => pushRow capturedSent r st) s

/-! ## Work partitioner (index.js lines 31–37 and 51–55) -/

/-- `Number(x) || 1` applied to an operator input whose numeric conversion
is modelled as `Option Int` (`none` for `NaN`): falsy `NaN` and `0`
collapse to `1`, every other number is kept. -/
def jsOr1 : Option Int → Int
  | none => 1
  | some v => if v = 0 then 1 else v

/-- The clamp used on each config field (index.js lines 31–33):
`Math.min(Math.max(1, v), cap)`. -/
def clampField (v : Int) (cap : Nat) : Int :=
  min (max 1 v) (cap : Int)

/-- A whole sanitized field: `Math.min(Math.max(1, Number(x) || 1), cap)`. -/
def sanitizeField (x : Option Int) (cap : Nat) : Int :=
  clampField (jsOr1 x) cap

/-- `perWorkerRps = Math.max(1, Math.floor(rps / c))` (index.js line 36). -/
def perWorkerRps (rps c : Nat) : Nat :=
  max 1 (rps / c)

/-- `estimatedTotalRps = perWorkerRps * c` (index.js line 37). -/
def estimatedTotalRps (rps c : Nat) : Nat :=
  perWorkerRps rps c * c

/-- The request count assigned to worker `i` (0-based, index.js line 55):
`Math.floor(trs / c) + (i < trs % c ? 1 : 0)`. -/
def assignedCount (trs c i : Nat) : Nat :=
  trs / c + (if i < trs % c then 1 else 0)

/-- The per-worker request assignments, in worker order
(index.js lines 51–55). -/
def assignments (trs c : Nat) : List Nat :=
  (List.range c).map (assignedCount trs c)

/-! ## Rate pacer and load unit (worker.js) -/

/-- `intervalMs = Math.max(1, Math.floor(1000 / Math.max(1, rps)))`
(worker.js line 16). -/
def intervalMs (rps : Nat) : Nat :=
  max 1 (1000 / max 1 rps)

/-- The pacing decision at the bottom of the worker loop
(worker.js lines 58–60): `wait = intervalMs - elapsedLoop`, and the worker
sleeps for `wait` only when `wait > 0`, so the effective wait is the
positive part. Timestamps come from `Date.now()`, so `elapsed` is an
integer difference. -/
def pacerWait (iMs : Nat) (elapsed : Int) : Int :=
  let wait : Int := (iMs : Int) - elapsed
  if wait > 0 then wait else 0

/-- What the environment does to one `fetch` attempt (worker.js
lines 21–55): the fetch resolves and the body reads (`success`), the
fetch resolves but `resp.text()` throws (`noText`), or the fetch itself
throws, with `msg` the truthy `err.message` when there is one
(`failure`). -/
inductive Outcome where
  | success (status : Nat) (body : List Char)
  | noText (status : Nat)
  | failure (msg : Option (List Char))
deriving DecidableEq, Repr

/-- One iteration's environment: the ISO timestamp taken after the
attempt, the measured elapsed milliseconds, and the attempt's outcome. -/
structure FetchResult where
  timestamp : List Char
  elapsedMs : Nat
  result : Outcome
deriving DecidableEq, Repr

/-- The `ResultRow` the worker posts for one attempt (worker.js
lines 31–54): on success `statusCode = resp.status`, snippet the first
300 characters of the body, `error = status ≥ 400`; when the body cannot
be read the snippet is the placeholder `"[no-text]"`; on a transport
failure `statusCode = null`, snippet the failure message truncated to
300 characters (or `"error"`), `error = true`. -/
def rowFor (id : Nat) (f : FetchResult) : ResultRow :=
  match f.result with
  | .success status body =>
      { timestamp := f.timestamp, workerId := id, statusCode := some status
        timeMs := f.elapsedMs, snippet := body.take 300
        error := decide (status ≥ 400) }
  | .noText status =>
      { timestamp := f.timestamp, workerId := id, statusCode := some status
        timeMs := f.elapsedMs, snippet := "[no-text]".data
        error := decide (status ≥ 400) }
  | .failure msg =>
      { timestamp := f.timestamp, workerId := id, statusCode := none
        timeMs := f.elapsedMs
        snippet := match msg with
          | some m => m.take 300
          | none => "error".data
        error := true }

/-- An event posted by the worker: a row per attempt, or the final done
message `{ workerId, sent }` (worker.js lines 31, 44, 64). -/
inductive WEvent where
  | row (payload : ResultRow)
  | done (workerId : Nat) (sent : Nat)
deriving DecidableEq, Repr

/-- The worker's request loop (worker.js lines 17–64), unrolled over the
remaining iteration count `fuel`. `i` is the loop index, `sent` the rows
posted so far; `stopAt i` tells whether the `stopped` flag is observed
set at the top of iteration `i`. Each non-stopped iteration posts exactly
one row (the try and the catch branch both post), then `sent++`; after
the loop one `done` event carries the final `sent`. -/
def unitLoop (id : Nat) (fetches : Nat → FetchResult) (stopAt : Nat → Bool) :
    Nat → Nat → Nat → List WEvent
  | _, 0, sent => [WEvent.done id sent]
  | i, fuel + 1, sent =>
      if stopAt i then [WEvent.done id sent]
      else WEvent.row (rowFor id (fetches i)) ::
        unitLoop id fetches stopAt (i + 1) fuel (sent + 1)

/-- A whole run of one load unit assigned `requests` requests
(worker.js `cmd === "start"` handler). -/
def runUnit (id requests : Nat) (fetches : Nat → FetchResult)
    (stopAt : Nat → Bool) : List WEvent :=
  unitLoop id fetches stopAt 0 requests 0

/-! ## CSV export (index.js lines 101–114)

The renderer is embedded at the character level (`List Char`). The
re-parser required by the round-trip claim is not part of the repository;
it is a standard CSV reader: split into lines, then split each line into
fields, a field being quoted (with `""` undoing the escaping) when it
starts with a double quote. -/

/-- JS decimal rendering of a `Nat`, as template interpolation `${n}`
produces it: peel decimal digits from the right. `fuel` bounds the
recursion and is kept at least the value, so it never runs out. -/
def decimalAux : Nat → Nat → List Char → List Char
  | _, 0, acc => acc
  | 0, _, acc => acc
  | fuel + 1, n + 1, acc =>
      decimalAux fuel ((n + 1) / 10) (Char.ofNat (48 + (n + 1) % 10) :: acc)

/-- Decimal digits of `n` (`${n}` for a JS number holding a Nat). -/
def decimal (n : Nat) : List Char :=
  if n = 0 then ['0'] else decimalAux n n []

/-- `String(x).replace(/"/g, String.fromCharCode(34,34))`: each double
quote becomes two (index.js line 104). -/
def escapeQuotes : List Char → List Char
  | [] => []
  | c :: rest =>
      if c = '"' then '"' :: '"' :: escapeQuotes rest
      else c :: escapeQuotes rest

/-- `${r.statusCode || ""}`: `null` and `0` are falsy and render empty
(index.js line 104). -/
def renderOptNat : Option Nat → List Char
  | none => []
  | some n => if n = 0 then [] else decimal n

/-- `${r.timeMs || ""}`: `0` is falsy and renders empty. -/
def renderNat (n : Nat) : List Char :=
  if n = 0 then [] else decimal n

/-- `${r.error ? 1 : 0}`. -/
def renderError (b : Bool) : List Char :=
  if b then ['1'] else ['0']

/-- The template on index.js line 104, one CSV line per row. The snippet
is the only quoted field; `(r.snippet || "")` is the identity here
because the empty string renders empty either way. -/
def csvLine (r : ResultRow) : List Char :=
  r.timestamp ++ ',' :: decimal r.workerId
    ++ ',' :: renderOptNat r.statusCode
    ++ ',' :: renderNat r.timeMs
    ++ ',' :: '"' :: (escapeQuotes r.snippet ++ '"' :: ',' :: renderError r.error)

/-- The header line (index.js line 102). -/
def csvHeader : List Char :=
  "timestamp,workerId,statusCode,timeMs,snippet,error".data

/-- `array.join(String.fromCharCode(10))` (index.js line 106). -/
def joinLines : List (List Char) → List Char
  | [] => []
  | [l] => l
  | l :: ls => l ++ '\n' :: joinLines ls

/-- `exportCSV`'s file content (index.js lines 101–106): the header, then
one line per buffered row oldest-first (`rows.slice().reverse()`, the
buffer being most-recent-first). -/
def exportCSV (rows : List ResultRow) : List Char :=
  joinLines (csvHeader :: rows.reverse.map csvLine)

/-- Split a text on newline characters, as a line-based CSV reader does;
`splitLines [] = [[]]` mirrors `"".split(sep) = [""]`. -/
def splitLines : List Char → List (List Char)
  | [] => [[]]
  | c :: rest =>
      if c = '\n' then [] :: splitLines rest
      else
        match splitLines rest with
        | [] => [[c]]
        | l :: ls => (c :: l) :: ls

/-- Prepend a character onto the first field of a field list (growing
the list when there is none yet). -/
def consField (c : Char) : List (List Char) → List (List Char)
  | [] => [[c]]
  | f :: fs => (c :: f) :: fs

/-- The CSV field reader, a character-level state machine over one line:
outside quotes (`inQ = false`) a `,` separates fields and a `"` enters
quoted mode; inside quotes `""` decodes to one literal quote and a lone
`"` leaves quoted mode. `fuel` bounds the recursion and is kept at least
the input length, so the exhaustion branch is never taken. -/
def parseFieldsGo : Nat → Bool → List Char → List (List Char)
  | _, _, [] => [[]]
  | 0, _, _ => [[]]
  | fuel + 1, false, c :: rest =>
      if c = ',' then [] :: parseFieldsGo fuel false rest
      else if c = '"' then parseFieldsGo fuel true rest
      else consField c (parseFieldsGo fuel false rest)
  | fuel + 1, true, c :: rest =>
      if c = '"' then
        match rest with
        | '"' :: rest2 => consField '"' (parseFieldsGo fuel true rest2)
        | _ => parseFieldsGo fuel false rest
      else consField c (parseFieldsGo fuel true rest)

/-- Split one CSV line into its decoded fields. -/
def parseFields (l : List Char) : List (List Char) :=
  parseFieldsGo l.length false l

/-- Prepend a whole character sequence onto the first field of a field
list (specification device used to state the parser lemmas). -/
def prependField (s : List Char) (fs : List (List Char)) : List (List Char) :=
  match fs with
  | [] => [s]
  | f :: fs2 => (s ++ f) :: fs2

/-- Re-parse a CSV file: lines, then fields of each line. -/
def parseCSV (content : List Char) : List (List (List Char)) :=
  (splitLines content).map parseFields

/-- The field values a CSV reader recovers from the line `exportCSV`
renders for `r`: timestamp and snippet verbatim, numbers in decimal with
`null`/`0` encoded as the empty field, `error` as `0`/`1`. -/
def rowFields (r : ResultRow) : List (List Char) :=
  [r.timestamp, decimal r.workerId, renderOptNat r.statusCode,
   renderNat r.timeMs, r.snippet, renderError r.error]

/-- The header fields of the exported CSV. -/
def headerFields : List (List Char) :=
  ["timestamp".data, "workerId".data, "statusCode".data, "timeMs".data,
   "snippet".data, "error".data]

/-- The header line the spec claims, naming the second column `unitId`. -/
def claimedHeader : List Char :=
  "timestamp,unitId,statusCode,timeMs,snippet,error".data

/-! ## Concrete sample data used by witnesses and counterexamples -/

/-- Whether an outcome is a transport-level failure (the worker's catch
branch). -/
def isFailureOutcome : Outcome → Bool
  | .failure _ => true
  | _ => false

/-- A successful result row. -/
def sampleRow : ResultRow :=
  { timestamp := "2024-01-01T00:00:00.000Z".data, workerId := 1
    statusCode := some 200, timeMs := 42, snippet := "he said \"hi\"".data
    error := false }

/-- A transport-failure result row, as the worker's catch branch emits. -/
def sampleErrRow : ResultRow :=
  { timestamp := "2024-01-01T00:00:00.000Z".data, workerId := 2
    statusCode := none, timeMs := 7, snippet := "Failed to fetch".data
    error := true }

/-- A row whose snippet contains a newline. -/
def sampleNewlineRow : ResultRow :=
  { timestamp := "2024-01-01T00:00:00.000Z".data, workerId := 3
    statusCode := some 200, timeMs := 5, snippet := "a\nb".data
    error := false }

/-- An environment in which every fetch fails with a network error. -/
def allFailFetches (i : Nat) : FetchResult :=
  { timestamp := "2024-01-01T00:00:00.000Z".data, elapsedMs := 10 + i
    result := .failure (some "Failed to fetch".data) }

/-! ## Work partitioner: sum conservation and spread (C3, C6) -/

theorem sum_map_range_base_extra (b k n : Nat) :
    ((List.range n).map (fun i => b + if i < k then 1 else 0)).sum
      = n * b + min n k := by
  induction n with
  | zero => simp
  | succ n ih =>
      rw [List.range_succ, List.map_append, List.sum_append, ih]
      simp only [List.map_cons, List.map_nil, List.sum_cons, List.sum_nil,
        Nat.succ_mul]
      split <;> omega

theorem assignments_sum_aux (trs c n : Nat) :
    ((List.range n).map (assignedCount trs c)).sum
      = n * (trs / c) + min n (trs % c) := by
  have h : assignedCount trs c =
      fun i => trs / c + if i < trs % c then 1 else 0 := by
    funext i
    rfl
  rw [h, sum_map_range_base_extra]

/-- **C3**: for `totalRequests ≥ 1` and `concurrency ≥ 1` the partition
`base + (i < remainder ? 1 : 0)` conserves the total exactly, keeps any
two assignments within 1 of each other, and yields `[4, 3, 3]` for
`totalRequests = 10, concurrency = 3`. -/
theorem partitioner_sum_spread (trs c : Nat) (htrs : 1 ≤ trs) (hc : 1 ≤ c) :
    (assignments trs c).sum = trs ∧
    (∀ x ∈ assignments trs c, ∀ y ∈ assignments trs c, x ≤ y + 1) ∧
    assignments 10 3 = [4, 3, 3] := by
  refine ⟨?_, ?_, by decide⟩
  · unfold assignments
    rw [assignments_sum_aux]
    have h1 := Nat.div_add_mod trs c
    have h2 : trs % c < c := Nat.mod_lt _ hc
    omega
  · intro x hx y hy
    simp only [assignments, List.mem_map, List.mem_range] at hx hy
    obtain ⟨i, hi, rfl⟩ := hx
    obtain ⟨j, hj, rfl⟩ := hy
    simp only [assignedCount]
    split <;> split <;> omega

theorem partitioner_sum_spread_witness :
    (assignments 10 3).sum = 10 ∧ assignments 10 3 = [4, 3, 3] :=
  ⟨(partitioner_sum_spread 10 3 (by decide) (by decide)).1,
   (partitioner_sum_spread 10 3 (by decide) (by decide)).2.2⟩

/-- **C6**: `perWorkerRps = max(1, ⌊targetRps / concurrency⌋)` is at
least 1, the estimated aggregate rate `perWorkerRps * concurrency` never
exceeds `max(targetRps, concurrency)`, and `targetRps = 5,
concurrency = 3` gives per-unit rate 1 and estimate 3. -/
theorem rps_partition (rps c : Nat) (hrps : 1 ≤ rps) (hc : 1 ≤ c) :
    perWorkerRps rps c = max 1 (rps / c) ∧
    1 ≤ perWorkerRps rps c ∧
    estimatedTotalRps rps c ≤ max rps c ∧
    perWorkerRps 5 3 = 1 ∧ estimatedTotalRps 5 3 = 3 := by
  refine ⟨rfl, le_max_left _ _, ?_, by decide, by decide⟩
  unfold estimatedTotalRps perWorkerRps
  rcases Nat.eq_zero_or_pos (rps / c) with h | h
  · rw [h]
    simpa using le_max_right rps c
  · have hmax : max 1 (rps / c) = rps / c := by omega
    rw [hmax]
    exact le_trans (Nat.div_mul_le_self rps c) (le_max_left _ _)

theorem rps_partition_witness :
    perWorkerRps 5 3 = 1 ∧ estimatedTotalRps 5 3 = 3 :=
  ⟨(rps_partition 5 3 (by decide) (by decide)).2.2.2.1,
   (rps_partition 5 3 (by decide) (by decide)).2.2.2.2⟩

/-! ## Config sanitization (C9, C10) -/

/-- **C9**: each config field is clamped into its legal range — a value
below 1 becomes 1, a value above the cap becomes the cap, an in-range
value is kept — so the run is never rejected for an out-of-range field. -/
theorem startTest_clamp (conc trs rps : Int) :
    (clampField conc MAX_CONCURRENCY =
        if conc < 1 then 1 else if conc > 500 then 500 else conc) ∧
    (1 ≤ clampField conc MAX_CONCURRENCY ∧
      clampField conc MAX_CONCURRENCY ≤ 500) ∧
    (clampField trs MAX_TOTAL_REQS =
        if trs < 1 then 1 else if trs > 100000 then 100000 else trs) ∧
    (1 ≤ clampField trs MAX_TOTAL_REQS ∧
      clampField trs MAX_TOTAL_REQS ≤ 100000) ∧
    (clampField rps MAX_REQS_PER_SEC =
        if rps < 1 then 1 else if rps > 1000 then 1000 else rps) ∧
    (1 ≤ clampField rps MAX_REQS_PER_SEC ∧
      clampField rps MAX_REQS_PER_SEC ≤ 1000) := by
  unfold clampField MAX_CONCURRENCY MAX_TOTAL_REQS MAX_REQS_PER_SEC
  refine ⟨?_, ⟨?_, ?_⟩, ?_, ⟨?_, ?_⟩, ?_, ⟨?_, ?_⟩⟩ <;>
    first
    | (split_ifs <;> omega)
    | omega

/-- **C10**: `Number(x) || 1` composed with the clamp sends `NaN`
(modelled `none`) and `0` to exactly 1, and never lets a value below 1
through to the partitioner. -/
theorem sanitize_nan_zero (x : Option Int) :
    (x = none ∨ x = some 0 →
      sanitizeField x MAX_CONCURRENCY = 1 ∧
      sanitizeField x MAX_TOTAL_REQS = 1 ∧
      sanitizeField x MAX_REQS_PER_SEC = 1) ∧
    1 ≤ sanitizeField x MAX_CONCURRENCY ∧
    1 ≤ sanitizeField x MAX_TOTAL_REQS ∧
    1 ≤ sanitizeField x MAX_REQS_PER_SEC := by
  rcases x with _ | v
  · exact ⟨fun _ => ⟨by decide, by decide, by decide⟩, by decide, by decide, by decide⟩
  · constructor
    · rintro (h | h)
      · cases h
      · injection h with h
        subst h
        exact ⟨by decide, by decide, by decide⟩
    · refine ⟨?_, ?_, ?_⟩ <;>
        (simp only [sanitizeField, clampField, jsOr1,
          MAX_CONCURRENCY, MAX_TOTAL_REQS, MAX_REQS_PER_SEC]
         split_ifs <;> omega)

theorem sanitize_nan_zero_witness :
    sanitizeField none MAX_CONCURRENCY = 1 ∧
    sanitizeField (some 0) MAX_TOTAL_REQS = 1 :=
  ⟨((sanitize_nan_zero none).1 (Or.inl rfl)).1,
   ((sanitize_nan_zero (some 0)).1 (Or.inr rfl)).2.1⟩

/-! ## Rate pacer (C7) -/

/-- **C7**: the effective wait the worker sleeps equals
`max(0, intervalMs - (end - start))`, is never negative, is zero for any
request at least `intervalMs` long (no catch-up debt), and `intervalMs`
is `max(1, ⌊1000 / max(1, unitRps)⌋)`. -/
theorem pacer_wait (rps : Nat) (s e : Int) :
    pacerWait (intervalMs rps) (e - s) =
      max 0 ((intervalMs rps : Int) - (e - s)) ∧
    0 ≤ pacerWait (intervalMs rps) (e - s) ∧
    ((intervalMs rps : Int) ≤ e - s → pacerWait (intervalMs rps) (e - s) = 0) ∧
    intervalMs rps = max 1 (1000 / max 1 rps) := by
  simp only [pacerWait]
  refine ⟨?_, ?_, fun h => ?_, rfl⟩ <;> split_ifs <;> omega

theorem pacer_wait_witness :
    pacerWait (intervalMs 10) (250 - 0) = 0 :=
  (pacer_wait 10 0 250).2.2.1 (by decide)



/-! ## Aggregator state lemmas -/

theorem pushRows_cons (k : Nat) (r : ResultRow) (t : List ResultRow)
    (s : HomeState) :
    pushRows k (r :: t) s = pushRows k t (pushRow k r s) := rfl

theorem pushRow_sent (k : Nat) (r : ResultRow) (s : HomeState) :
    (pushRow k r s).sent = s.sent + 1 := by
  simp only [pushRow, stopTest]
  split <;> rfl

theorem pushRow_errors (k : Nat) (r : ResultRow) (s : HomeState) :
    (pushRow k r s).errors = s.errors + (if r.error then 1 else 0) := by
  simp only [pushRow, stopTest]
  split <;> rfl

theorem pushRow_rows (k : Nat) (r : ResultRow) (s : HomeState) :
    (pushRow k r s).rows = insertRow r s.rows := by
  simp only [pushRow, stopTest]
  split <;> rfl

theorem pushRow_running (k : Nat) (r : ResultRow) (s : HomeState) :
    (pushRow k r s).running =
      if k + 1 ≥ MAX_TOTAL_REQS then false else s.running := by
  simp only [pushRow, stopTest]
  split <;> rfl

theorem pushRows_sent (k : Nat) (rs : List ResultRow) (s : HomeState) :
    (pushRows k rs s).sent = s.sent + rs.length := by
  induction rs generalizing s with
  | nil => rfl
  | cons r t ih =>
      rw [pushRows_cons, ih, pushRow_sent, List.length_cons]
      omega

theorem pushRows_errors (k : Nat) (rs : List ResultRow) (s : HomeState) :
    (pushRows k rs s).errors = s.errors + rs.countP (fun r => r.error) := by
  induction rs generalizing s with
  | nil => simp [pushRows]
  | cons r t ih =>
      rw [pushRows_cons, ih, pushRow_errors, List.countP_cons]
      cases hr : r.error <;> simp [hr] <;> omega

theorem pushRows_running_of_lt (k : Nat) (rs : List ResultRow)
    (s : HomeState) (h : k + 1 < MAX_TOTAL_REQS) :
    (pushRows k rs s).running = s.running := by
  induction rs generalizing s with
  | nil => rfl
  | cons r t ih =>
      rw [pushRows_cons, ih, pushRow_running, if_neg]
      omega

theorem insertRow_length_le (r : ResultRow) (l : List ResultRow)
    (h : l.length ≤ 2000) : (insertRow r l).length ≤ 2000 := by
  simp only [insertRow]
  split
  · rw [List.length_dropLast, List.length_cons]
    omega
  · rename_i hnot
    rw [List.length_cons]
    rw [List.length_cons] at hnot
    omega

theorem insertRow_head (r : ResultRow) (l : List ResultRow) :
    (insertRow r l).head? = some r := by
  simp only [insertRow]
  split
  · rename_i h
    cases l with
    | nil => simp at h
    | cons a t =>
        rw [List.dropLast_cons₂]
        rfl
  · rfl

theorem insertRow_evict (r : ResultRow) (l : List ResultRow) :
    (l.length + 1 > 2000 → insertRow r l = r :: l.dropLast) ∧
    (l.length + 1 ≤ 2000 → insertRow r l = r :: l) := by
  constructor
  · intro h
    simp only [insertRow]
    rw [if_pos (by rw [List.length_cons]; omega)]
    cases l with
    | nil => simp at h
    | cons a t => rw [List.dropLast_cons₂]
  · intro h
    simp only [insertRow]
    rw [if_neg (by rw [List.length_cons]; omega)]

/-- **C5**: within a run, `summary.sent` counts every `pushRow` call and
`summary.errors` counts exactly the rows with `error = true`, no matter
what the buffer evicted; both counters only ever grow. This holds for
every value the start-time closure captured, since both branches of the
defensive check update the counters identically. -/
theorem aggregator_counters (k : Nat) (rs : List ResultRow) :
    (pushRows k rs initState).sent = rs.length ∧
    (pushRows k rs initState).errors = rs.countP (fun r => r.error) ∧
    ∀ (r : ResultRow) (s : HomeState),
      s.sent ≤ (pushRow k r s).sent ∧ s.errors ≤ (pushRow k r s).errors := by
  refine ⟨?_, ?_, fun r s => ⟨?_, ?_⟩⟩
  · rw [pushRows_sent]
    simp [initState]
  · rw [pushRows_errors]
    simp [initState]
  · rw [pushRow_sent]
    omega
  · rw [pushRow_errors]
    omega

theorem aggregator_counters_witness :
    (pushRows 0 [sampleRow, sampleErrRow] initState).sent = 2 ∧
    (pushRows 0 [sampleRow, sampleErrRow] initState).errors = 1 := by
  have h := aggregator_counters 0 [sampleRow, sampleErrRow]
  exact ⟨h.1, by rw [h.2.1]; decide⟩

/-- **C4**: after any number of `pushRow` calls the buffer holds at most
2000 rows, its head is always the row just inserted, and past the cap
the oldest row (the buffer's last element) is dropped. This holds for
every value the start-time closure captured, since both branches of the
defensive check update the buffer identically. -/
theorem aggregator_buffer (k : Nat) (rs : List ResultRow) :
    (pushRows k rs initState).rows.length ≤ 2000 ∧
    (∀ (r : ResultRow) (s : HomeState),
      (pushRow k r s).rows.head? = some r) ∧
    (∀ (r : ResultRow) (s : HomeState),
      (s.rows.length + 1 > 2000 →
        (pushRow k r s).rows = r :: s.rows.dropLast) ∧
      (s.rows.length + 1 ≤ 2000 → (pushRow k r s).rows = r :: s.rows)) := by
  refine ⟨?_, fun r s => ?_, fun r s => ?_⟩
  · have inv : ∀ (l : List ResultRow) (s : HomeState), s.rows.length ≤ 2000 →
        (pushRows k l s).rows.length ≤ 2000 := by
      intro l
      induction l with
      | nil => intro s h; exact h
      | cons r t ih =>
          intro s h
          rw [pushRows_cons]
          apply ih
          rw [pushRow_rows]
          exact insertRow_length_le r s.rows h
    exact inv rs initState (by simp [initState])
  · rw [pushRow_rows]
    exact insertRow_head r s.rows
  · simp only [pushRow_rows]
    exact insertRow_evict r s.rows

theorem aggregator_buffer_witness :
    (pushRow 0 sampleRow initState).rows = sampleRow :: initState.rows :=
  ((aggregator_buffer 0 []).2.2 sampleRow initState).2 (by decide)

/-! ## Defensive stop (C1) -/

/-- **C1** (code bug — the defensive stop is dead code): the spec's
defensive global stop is clearly the intent of index.js line 98, which
is written to call `stopTest` once `summary.sent + 1` reaches
`MAX_TOTAL_REQS`; but the `summary` that line reads is the one the
start-time `onmessage` closure captured (index.js line 64), `0` for a
fresh run, never the live counter. Evaluating the code at the failing
input — a fresh run (`capturedSent = 0`) delivering `MAX_TOTAL_REQS`
rows and then one more — shows the run never self-stops: `running` is
still `true` after 100000 rows, and the 100001st row is still inserted
at the buffer head and counted, where the claim requires `stop()` to
have been invoked and the row rejected. -/
theorem defensive_stop_dead :
    (pushRows 0 (List.replicate MAX_TOTAL_REQS sampleErrRow)
        initState).running = true ∧
    (pushRows 0 (List.replicate MAX_TOTAL_REQS sampleErrRow)
        initState).sent = MAX_TOTAL_REQS ∧
    (pushRow 0 sampleErrRow
        (pushRows 0 (List.replicate MAX_TOTAL_REQS sampleErrRow)
          initState)).sent = MAX_TOTAL_REQS + 1 ∧
    (pushRow 0 sampleErrRow
        (pushRows 0 (List.replicate MAX_TOTAL_REQS sampleErrRow)
          initState)).rows.head? = some sampleErrRow := by
  have hlen : (List.replicate MAX_TOTAL_REQS sampleErrRow).length
      = MAX_TOTAL_REQS := List.length_replicate _ _
  refine ⟨?_, ?_, ?_, ?_⟩
  · rw [pushRows_running_of_lt 0 _ initState (by decide)]
    rfl
  · rw [pushRows_sent, hlen]
    simp [initState]
  · rw [pushRow_sent, pushRows_sent, hlen]
    simp only [initState]
    omega
  · rw [pushRow_rows]
    exact insertRow_head _ _

/-! ## Load unit (C8) -/

theorem unitLoop_no_stop (id : Nat) (fetches : Nat → FetchResult)
    (fuel : Nat) :
    ∀ (i sent : Nat),
    unitLoop id fetches (fun _ => false) i fuel sent =
      ((List.range fuel).map (fun k => WEvent.row (rowFor id (fetches (i + k)))))
        ++ [WEvent.done id (sent + fuel)] := by
  induction fuel with
  | zero =>
      intro i sent
      simp [unitLoop]
  | succ n ih =>
      intro i sent
      simp only [unitLoop, Bool.false_eq_true, if_false]
      rw [ih (i + 1) (sent + 1), List.range_succ_eq_map, List.map_cons,
        List.map_map, List.cons_append]
      have h1 : sent + 1 + n = sent + (n + 1) := by omega
      rw [h1]
      congr 1
      have hmap : List.map
          (fun k => WEvent.row (rowFor id (fetches (i + 1 + k)))) (List.range n)
          = List.map ((fun k => WEvent.row (rowFor id (fetches (i + k))))
              ∘ Nat.succ) (List.range n) := by
        apply List.map_congr_left
        intro k _
        simp only [Function.comp_apply]
        have h2 : i + 1 + k = i + Nat.succ k := by omega
        rw [h2]
      rw [hmap]

/-- **C8**: a never-cancelled unit assigned `n` requests that all fail at
the transport level still emits exactly one row per attempt — `n` rows,
each with `error = true` and `statusCode = null` — followed by exactly
one done event whose sent count is `n`. -/
theorem load_unit_all_fail (id n : Nat) (fetches : Nat → FetchResult)
    (hf : ∀ i, i < n → isFailureOutcome (fetches i).result = true) :
    runUnit id n fetches (fun _ => false) =
      ((List.range n).map (fun k => WEvent.row (rowFor id (fetches k))))
        ++ [WEvent.done id n] ∧
    ∀ i, i < n → (rowFor id (fetches i)).error = true ∧
      (rowFor id (fetches i)).statusCode = none := by
  constructor
  · unfold runUnit
    rw [unitLoop_no_stop]
    simp
  · intro i hi
    have hfi := hf i hi
    cases h : (fetches i).result with
    | success st b =>
        rw [h] at hfi
        simp [isFailureOutcome] at hfi
    | noText st =>
        rw [h] at hfi
        simp [isFailureOutcome] at hfi
    | failure m =>
        simp [rowFor, h]

theorem load_unit_all_fail_witness :
    runUnit 7 5 allFailFetches (fun _ => false) =
      ((List.range 5).map (fun k => WEvent.row (rowFor 7 (allFailFetches k))))
        ++ [WEvent.done 7 5] :=
  (load_unit_all_fail 7 5 allFailFetches (fun i _ => rfl)).1

/-! ## CSV parser lemmas (C2) -/

theorem go_nil (fuel : Nat) (b : Bool) : parseFieldsGo fuel b [] = [[]] := by
  cases fuel <;> cases b <;> rfl

theorem go_zero (b : Bool) (l : List Char) : parseFieldsGo 0 b l = [[]] := by
  cases l <;> cases b <;> rfl

theorem go_comma (fu : Nat) (rest : List Char) :
    parseFieldsGo (fu + 1) false (',' :: rest)
      = [] :: parseFieldsGo fu false rest := rfl

theorem go_openq (fu : Nat) (rest : List Char) :
    parseFieldsGo (fu + 1) false ('"' :: rest)
      = parseFieldsGo fu true rest := rfl

theorem go_other_false (fu : Nat) (c : Char) (rest : List Char)
    (h1 : c ≠ ',') (h2 : c ≠ '"') :
    parseFieldsGo (fu + 1) false (c :: rest)
      = consField c (parseFieldsGo fu false rest) := by
  rw [parseFieldsGo.eq_def]
  simp only []
  rw [if_neg h1, if_neg h2]

theorem go_qq (fu : Nat) (rest2 : List Char) :
    parseFieldsGo (fu + 1) true ('"' :: '"' :: rest2)
      = consField '"' (parseFieldsGo fu true rest2) := rfl

theorem go_closeq (fu : Nat) (rest : List Char) (h : rest.head? ≠ some '"') :
    parseFieldsGo (fu + 1) true ('"' :: rest)
      = parseFieldsGo fu false rest := by
  rw [parseFieldsGo.eq_def]
  simp only [ite_true]
  cases rest with
  | nil => rfl
  | cons d t =>
      have hd : d ≠ '"' := by
        intro he
        rw [he] at h
        exact h rfl
      simp [hd]

theorem go_other_true (fu : Nat) (c : Char) (rest : List Char) (hc : c ≠ '"') :
    parseFieldsGo (fu + 1) true (c :: rest)
      = consField c (parseFieldsGo fu true rest) := by
  rw [parseFieldsGo.eq_def]
  simp only []
  rw [if_neg hc]

theorem consField_ne_nil (c : Char) (fs : List (List Char)) :
    consField c fs ≠ [] := by
  cases fs <;> simp [consField]

theorem parseFieldsGo_ne_nil (fuel : Nat) (b : Bool) (l : List Char) :
    parseFieldsGo fuel b l ≠ [] := by
  induction fuel, b, l using parseFieldsGo.induct with
  | case1 t x => rw [go_nil]; simp
  | case2 x l hne => rw [go_zero]; simp
  | case3 fuel rest ih => rw [go_comma]; simp
  | case4 fuel rest hq ih => rw [go_openq]; exact ih
  | case5 fuel c rest h1 h2 ih =>
      rw [go_other_false fuel c rest h1 h2]
      exact consField_ne_nil c _
  | case6 fuel rest2 ih => rw [go_qq]; exact consField_ne_nil _ _
  | case7 fuel rest hr ih =>
      have hhead : rest.head? ≠ some '"' := by
        cases rest with
        | nil => simp
        | cons d t =>
            intro hc
            simp only [List.head?_cons, Option.some.injEq] at hc
            exact hr t (by rw [hc])
      rw [go_closeq fuel rest hhead]
      exact ih
  | case8 fuel c rest hc ih =>
      rw [go_other_true fuel c rest hc]
      exact consField_ne_nil c _

theorem parseFieldsGo_fuel (fuel : Nat) (b : Bool) (l : List Char) :
    ∀ (fuel2 : Nat), l.length ≤ fuel → l.length ≤ fuel2 →
    parseFieldsGo fuel b l = parseFieldsGo fuel2 b l := by
  induction fuel, b, l using parseFieldsGo.induct with
  | case1 t x =>
      intro fuel2 h1 h2
      rw [go_nil, go_nil]
  | case2 x l hne =>
      intro fuel2 h1 h2
      cases l with
      | nil => exact absurd rfl hne
      | cons c t => simp at h1
  | case3 fuel rest ih =>
      intro fuel2 h1 h2
      cases fuel2 with
      | zero => simp at h2
      | succ fu2 =>
          rw [go_comma, go_comma,
            ih fu2 (by simp at h1; omega) (by simp at h2; omega)]
  | case4 fuel rest hq ih =>
      intro fuel2 h1 h2
      cases fuel2 with
      | zero => simp at h2
      | succ fu2 =>
          rw [go_openq, go_openq,
            ih fu2 (by simp at h1; omega) (by simp at h2; omega)]
  | case5 fuel c rest hc1 hc2 ih =>
      intro fuel2 h1 h2
      cases fuel2 with
      | zero => simp at h2
      | succ fu2 =>
          rw [go_other_false fuel c rest hc1 hc2,
            go_other_false fu2 c rest hc1 hc2,
            ih fu2 (by simp at h1; omega) (by simp at h2; omega)]
  | case6 fuel rest2 ih =>
      intro fuel2 h1 h2
      cases fuel2 with
      | zero => simp at h2
      | succ fu2 =>
          rw [go_qq, go_qq,
            ih fu2 (by simp at h1; omega) (by simp at h2; omega)]
  | case7 fuel rest hr ih =>
      have hhead : rest.head? ≠ some '"' := by
        cases rest with
        | nil => simp
        | cons d t =>
            intro hc
            simp only [List.head?_cons, Option.some.injEq] at hc
            exact hr t (by rw [hc])
      intro fuel2 h1 h2
      cases fuel2 with
      | zero => simp at h2
      | succ fu2 =>
          rw [go_closeq fuel rest hhead, go_closeq fu2 rest hhead,
            ih fu2 (by simp at h1; omega) (by simp at h2; omega)]
  | case8 fuel c rest hc ih =>
      intro fuel2 h1 h2
      cases fuel2 with
      | zero => simp at h2
      | succ fu2 =>
          rw [go_other_true fuel c rest hc, go_other_true fu2 c rest hc,
            ih fu2 (by simp at h1; omega) (by simp at h2; omega)]

theorem consField_prependField (c : Char) (s : List Char)
    (fs : List (List Char)) :
    consField c (prependField s fs) = prependField (c :: s) fs := by
  cases fs <;> rfl

theorem prependField_nil (fs : List (List Char)) (h : fs ≠ []) :
    prependField [] fs = fs := by
  cases fs with
  | nil => exact absurd rfl h
  | cons f fs2 => rfl

theorem parseFieldsGo_false_prepend (f : List Char) :
    ∀ (fuel : Nat) (rest : List Char),
    f.length + rest.length ≤ fuel →
    (∀ c ∈ f, c ≠ ',' ∧ c ≠ '"') →
    parseFieldsGo fuel false (f ++ rest)
      = prependField f (parseFieldsGo fuel false rest) := by
  induction f with
  | nil =>
      intro fuel rest h hc
      rw [List.nil_append,
        prependField_nil _ (parseFieldsGo_ne_nil fuel false rest)]
  | cons c t ih =>
      intro fuel rest h hc
      cases fuel with
      | zero => simp at h
      | succ fu =>
          have hcc := hc c (by simp)
          rw [List.cons_append, go_other_false fu c _ hcc.1 hcc.2,
            ih fu rest (by simp at h ⊢; omega)
              (fun d hd => hc d (by simp [hd])),
            consField_prependField,
            parseFieldsGo_fuel fu false rest (fu + 1)
              (by simp at h; omega) (by simp at h; omega)]

theorem parseFieldsGo_true_escape (s : List Char) :
    ∀ (fuel : Nat) (rest : List Char),
    (escapeQuotes s).length + 1 + rest.length ≤ fuel →
    rest.head? ≠ some '"' →
    parseFieldsGo fuel true (escapeQuotes s ++ '"' :: rest)
      = prependField s (parseFieldsGo fuel false rest) := by
  induction s with
  | nil =>
      intro fuel rest h hr
      cases fuel with
      | zero => simp [escapeQuotes] at h
      | succ fu =>
          rw [show escapeQuotes [] = [] from rfl, List.nil_append,
            go_closeq fu rest hr,
            parseFieldsGo_fuel fu false rest (fu + 1)
              (by simp [escapeQuotes] at h; omega) (by simp [escapeQuotes] at h; omega),
            prependField_nil _ (parseFieldsGo_ne_nil _ false rest)]
  | cons c t ih =>
      intro fuel rest h hr
      by_cases hcq : c = '"'
      · subst hcq
        have hesc : escapeQuotes ('"' :: t) = '"' :: '"' :: escapeQuotes t := by
          simp [escapeQuotes]
        rw [hesc] at h ⊢
        cases fuel with
        | zero => simp at h
        | succ fu =>
            rw [List.cons_append, List.cons_append, go_qq,
              ih fu rest (by simp at h ⊢; omega) hr,
              consField_prependField,
              parseFieldsGo_fuel fu false rest (fu + 1)
                (by simp at h; omega) (by simp at h; omega)]
      · have hesc : escapeQuotes (c :: t) = c :: escapeQuotes t := by
          simp [escapeQuotes, hcq]
        rw [hesc] at h ⊢
        cases fuel with
        | zero => simp at h
        | succ fu =>
            rw [List.cons_append, go_other_true fu c _ hcq,
              ih fu rest (by simp at h ⊢; omega) hr,
              consField_prependField,
              parseFieldsGo_fuel fu false rest (fu + 1)
                (by simp at h; omega) (by simp at h; omega)]

theorem parseFieldsGo_field (f : List Char) (fuel : Nat) (rest : List Char)
    (h : f.length + 1 + rest.length ≤ fuel)
    (hc : ∀ c ∈ f, c ≠ ',' ∧ c ≠ '"') :
    parseFieldsGo fuel false (f ++ ',' :: rest)
      = f :: parseFieldsGo fuel false rest := by
  rw [parseFieldsGo_false_prepend f fuel (',' :: rest)
    (by simp at h ⊢; omega) hc]
  cases fuel with
  | zero => simp at h
  | succ fu =>
      rw [go_comma,
        parseFieldsGo_fuel fu false rest (fu + 1)
          (by omega) (by omega)]
      simp [prependField]

theorem parseFieldsGo_snippet (s : List Char) (fuel : Nat) (rest : List Char)
    (h : (escapeQuotes s).length + 3 + rest.length ≤ fuel) :
    parseFieldsGo fuel false ('"' :: (escapeQuotes s ++ '"' :: ',' :: rest))
      = s :: parseFieldsGo fuel false rest := by
  cases fuel with
  | zero => exact absurd h (by omega)
  | succ fu =>
      rw [go_openq,
        parseFieldsGo_true_escape s fu (',' :: rest)
          (by simp; omega) (by simp)]
      cases fu with
      | zero => exact absurd h (by omega)
      | succ fu2 =>
          rw [go_comma,
            parseFieldsGo_fuel fu2 false rest (fu2 + 1 + 1)
              (by omega) (by omega)]
          simp [prependField]

theorem parseFieldsGo_last (f : List Char) (fuel : Nat)
    (h : f.length ≤ fuel) (hc : ∀ c ∈ f, c ≠ ',' ∧ c ≠ '"') :
    parseFieldsGo fuel false f = [f] := by
  have hp := parseFieldsGo_false_prepend f fuel [] (by simp; omega) hc
  rw [List.append_nil] at hp
  rw [hp, go_nil]
  simp [prependField]

theorem digitChar_valid (d : Nat) (hd : d < 10) :
    (Char.ofNat (48 + d)).isDigit = true := by
  interval_cases d <;> decide

theorem decimalAux_mem (fuel : Nat) :
    ∀ (n : Nat) (acc : List Char) (c : Char),
    c ∈ decimalAux fuel n acc → c ∈ acc ∨ c.isDigit = true := by
  induction fuel with
  | zero =>
      intro n acc c h
      cases n with
      | zero => exact Or.inl (by simpa [decimalAux] using h)
      | succ m => exact Or.inl (by simpa [decimalAux] using h)
  | succ fu ih =>
      intro n acc c h
      cases n with
      | zero => exact Or.inl (by simpa [decimalAux] using h)
      | succ m =>
          rw [show decimalAux (fu + 1) (m + 1) acc
              = decimalAux fu ((m + 1) / 10)
                (Char.ofNat (48 + (m + 1) % 10) :: acc) from rfl] at h
          rcases ih ((m + 1) / 10) _ c h with h2 | h2
          · rcases List.mem_cons.mp h2 with h3 | h3
            · right
              rw [h3]
              exact digitChar_valid _ (Nat.mod_lt _ (by omega))
            · exact Or.inl h3
          · exact Or.inr h2

theorem decimal_valid (n : Nat) (c : Char) (h : c ∈ decimal n) :
    c ≠ ',' ∧ c ≠ '"' ∧ c ≠ '\n' := by
  have hd : c.isDigit = true := by
    unfold decimal at h
    split at h
    · simp only [List.mem_singleton] at h
      rw [h]
      decide
    · rcases decimalAux_mem n n [] c h with h2 | h2
      · simp at h2
      · exact h2
  refine ⟨?_, ?_, ?_⟩ <;> intro he <;> rw [he] at hd <;>
    exact absurd hd (by decide)

theorem renderOptNat_valid (o : Option Nat) (c : Char)
    (h : c ∈ renderOptNat o) : c ≠ ',' ∧ c ≠ '"' ∧ c ≠ '\n' := by
  cases o with
  | none => simp [renderOptNat] at h
  | some n =>
      simp only [renderOptNat] at h
      split at h
      · simp at h
      · exact decimal_valid n c h

theorem renderNat_valid (n : Nat) (c : Char) (h : c ∈ renderNat n) :
    c ≠ ',' ∧ c ≠ '"' ∧ c ≠ '\n' := by
  simp only [renderNat] at h
  split at h
  · simp at h
  · exact decimal_valid n c h

theorem renderError_valid (b : Bool) (c : Char) (h : c ∈ renderError b) :
    c ≠ ',' ∧ c ≠ '"' ∧ c ≠ '\n' := by
  cases b <;> simp [renderError] at h <;> rw [h] <;>
    exact ⟨by decide, by decide, by decide⟩

theorem mem_escapeQuotes (s : List Char) (c : Char) (h : c ∈ escapeQuotes s) :
    c ∈ s := by
  induction s with
  | nil => simpa [escapeQuotes] using h
  | cons d t ih =>
      simp only [escapeQuotes] at h
      split at h
      · rename_i hd
        simp only [List.mem_cons] at h ⊢
        rcases h with h | h | h
        · exact Or.inl (by rw [h, hd])
        · exact Or.inl (by rw [h, hd])
        · exact Or.inr (ih h)
      · simp only [List.mem_cons] at h ⊢
        rcases h with h | h
        · exact Or.inl h
        · exact Or.inr (ih h)

theorem notMem_append {c : Char} {a b : List Char}
    (ha : c ∉ a) (hb : c ∉ b) : c ∉ a ++ b := by
  simp only [List.mem_append]
  rintro (h | h)
  exacts [ha h, hb h]

theorem notMem_cons {c d : Char} {l : List Char}
    (hd : c ≠ d) (hl : c ∉ l) : c ∉ d :: l := by
  simp only [List.mem_cons]
  rintro (h | h)
  exacts [hd h, hl h]

theorem csvLine_no_newline (r : ResultRow)
    (hts : ∀ c ∈ r.timestamp, c ≠ ',' ∧ c ≠ '"' ∧ c ≠ '\n')
    (hsn : '\n' ∉ r.snippet) :
    '\n' ∉ csvLine r := by
  simp only [csvLine, List.append_assoc, List.cons_append]
  refine notMem_append (fun h => (hts _ h).2.2 rfl) ?_
  refine notMem_cons (by decide) ?_
  refine notMem_append (fun h => (decimal_valid _ _ h).2.2 rfl) ?_
  refine notMem_cons (by decide) ?_
  refine notMem_append (fun h => (renderOptNat_valid _ _ h).2.2 rfl) ?_
  refine notMem_cons (by decide) ?_
  refine notMem_append (fun h => (renderNat_valid _ _ h).2.2 rfl) ?_
  refine notMem_cons (by decide) ?_
  refine notMem_cons (by decide) ?_
  refine notMem_append (fun h => hsn (mem_escapeQuotes _ _ h)) ?_
  refine notMem_cons (by decide) ?_
  refine notMem_cons (by decide) ?_
  exact fun h => (renderError_valid _ _ h).2.2 rfl

theorem splitLines_no_newline (l : List Char) (h : '\n' ∉ l) :
    splitLines l = [l] := by
  induction l with
  | nil => rfl
  | cons c t ih =>
      simp only [splitLines]
      rw [if_neg (fun hc => h (by rw [hc]; exact List.mem_cons_self _ _)),
        ih (fun ht => h (List.mem_cons_of_mem _ ht))]

theorem splitLines_append (l : List Char) (t : List Char) (h : '\n' ∉ l) :
    splitLines (l ++ '\n' :: t) = l :: splitLines t := by
  induction l with
  | nil =>
      simp only [List.nil_append, splitLines, ite_true]
  | cons c u ih =>
      rw [List.cons_append]
      simp only [splitLines]
      rw [if_neg (fun hc => h (by rw [hc]; exact List.mem_cons_self _ _)),
        ih (fun ht => h (List.mem_cons_of_mem _ ht))]

theorem splitLines_joinLines (ls : List (List Char))
    (hne : ls ≠ []) (h : ∀ l ∈ ls, '\n' ∉ l) :
    splitLines (joinLines ls) = ls := by
  induction ls with
  | nil => exact absurd rfl hne
  | cons l rest ih =>
      cases rest with
      | nil =>
          rw [show joinLines [l] = l from rfl]
          exact splitLines_no_newline l (h l (by simp))
      | cons l2 rest2 =>
          rw [show joinLines (l :: l2 :: rest2)
              = l ++ '\n' :: joinLines (l2 :: rest2) from rfl,
            splitLines_append _ _ (h l (by simp)),
            ih (by simp) (fun x hx => h x (List.mem_cons_of_mem _ hx))]

theorem parseFieldsGo_csvLine (r : ResultRow) (fuel : Nat)
    (hfuel : (csvLine r).length ≤ fuel)
    (hts : ∀ c ∈ r.timestamp, c ≠ ',' ∧ c ≠ '"') :
    parseFieldsGo fuel false (csvLine r) = rowFields r := by
  have hshape : csvLine r
      = r.timestamp ++ ',' :: (decimal r.workerId
        ++ ',' :: (renderOptNat r.statusCode
        ++ ',' :: (renderNat r.timeMs
        ++ ',' :: ('"' :: (escapeQuotes r.snippet
        ++ '"' :: ',' :: renderError r.error))))) := by
    simp only [csvLine, List.append_assoc, List.cons_append]
  rw [hshape] at hfuel ⊢
  simp only [List.length_append, List.length_cons] at hfuel
  rw [parseFieldsGo_field r.timestamp fuel
    (decimal r.workerId ++ ',' :: (renderOptNat r.statusCode
      ++ ',' :: (renderNat r.timeMs ++ ',' :: ('"' :: (escapeQuotes r.snippet
      ++ '"' :: ',' :: renderError r.error)))))
    (by first
      | (simp only [List.length_append, List.length_cons]; omega)
      | omega)
    hts]
  rw [parseFieldsGo_field (decimal r.workerId) fuel
    (renderOptNat r.statusCode ++ ',' :: (renderNat r.timeMs
      ++ ',' :: ('"' :: (escapeQuotes r.snippet
      ++ '"' :: ',' :: renderError r.error))))
    (by first
      | (simp only [List.length_append, List.length_cons]; omega)
      | omega)
    (fun c hc => ⟨(decimal_valid _ _ hc).1, (decimal_valid _ _ hc).2.1⟩)]
  rw [parseFieldsGo_field (renderOptNat r.statusCode) fuel
    (renderNat r.timeMs ++ ',' :: ('"' :: (escapeQuotes r.snippet
      ++ '"' :: ',' :: renderError r.error)))
    (by first
      | (simp only [List.length_append, List.length_cons]; omega)
      | omega)
    (fun c hc => ⟨(renderOptNat_valid _ _ hc).1, (renderOptNat_valid _ _ hc).2.1⟩)]
  rw [parseFieldsGo_field (renderNat r.timeMs) fuel
    ('"' :: (escapeQuotes r.snippet ++ '"' :: ',' :: renderError r.error))
    (by first
      | (simp only [List.length_append, List.length_cons]; omega)
      | omega)
    (fun c hc => ⟨(renderNat_valid _ _ hc).1, (renderNat_valid _ _ hc).2.1⟩)]
  rw [parseFieldsGo_snippet r.snippet fuel (renderError r.error) (by omega)]
  rw [parseFieldsGo_last (renderError r.error) fuel (by omega)
    (fun c hc => ⟨(renderError_valid _ _ hc).1, (renderError_valid _ _ hc).2.1⟩)]
  rfl

theorem parseFields_csvLine (r : ResultRow)
    (hts : ∀ c ∈ r.timestamp, c ≠ ',' ∧ c ≠ '"') :
    parseFields (csvLine r) = rowFields r :=
  parseFieldsGo_csvLine r (csvLine r).length le_rfl hts

/-- **C2 (amended)**: `exportCSV` renders the header line
`"timestamp,workerId,statusCode,timeMs,snippet,error"` and, provided
every buffered row's timestamp is free of commas, quotes and newlines
(as ISO-8601 timestamps are) and its snippet contains no newline, one
line per buffered row, oldest first; re-parsing the file with a standard
quote-aware CSV reader yields exactly one record per row whose fields
are the rendered encodings of the original row — timestamp and snippet
recovered verbatim (quote-escaping reversed), numbers in decimal with
`null` statusCode and `0` rendered as the empty field, error as 0/1. -/
theorem exportCSV_roundtrip (rows : List ResultRow)
    (h : ∀ r ∈ rows,
      (∀ c ∈ r.timestamp, c ≠ ',' ∧ c ≠ '"' ∧ c ≠ '\n') ∧
      '\n' ∉ r.snippet) :
    splitLines (exportCSV rows) = csvHeader :: rows.reverse.map csvLine ∧
    parseCSV (exportCSV rows) = headerFields :: rows.reverse.map rowFields := by
  have hsplit : splitLines (exportCSV rows)
      = csvHeader :: rows.reverse.map csvLine := by
    unfold exportCSV
    apply splitLines_joinLines
    · simp
    · intro l hl
      simp only [List.mem_cons, List.mem_map] at hl
      rcases hl with rfl | ⟨r, hr, rfl⟩
      · decide
      · have hr2 := h r (List.mem_reverse.mp hr)
        exact csvLine_no_newline r hr2.1 hr2.2
  refine ⟨hsplit, ?_⟩
  have hmap : (rows.reverse.map csvLine).map parseFields
      = rows.reverse.map rowFields := by
    rw [List.map_map]
    apply List.map_congr_left
    intro r hr
    simp only [Function.comp_apply]
    have hr2 := h r (List.mem_reverse.mp hr)
    exact parseFields_csvLine r
      (fun c hc => ⟨(hr2.1 c hc).1, (hr2.1 c hc).2.1⟩)
  unfold parseCSV
  rw [hsplit, List.map_cons, hmap,
    show parseFields csvHeader = headerFields from by decide]

theorem exportCSV_roundtrip_witness :
    parseCSV (exportCSV [sampleErrRow, sampleRow])
      = [headerFields, rowFields sampleRow, rowFields sampleErrRow] := by
  have h := exportCSV_roundtrip [sampleErrRow, sampleRow]
    (by
      intro r hr
      simp only [List.mem_cons, List.not_mem_nil, or_false] at hr
      rcases hr with rfl | rfl
      · exact ⟨by decide, by decide⟩
      · exact ⟨by decide, by decide⟩)
  rw [h.2]
  rfl

/-- **C2 counterexample**: the header `exportCSV` actually writes names
the second column `workerId`, not `unitId` as the claim states; and for
a buffer holding one row whose snippet contains a newline the output has
three lines, not the claimed header-plus-one-line-per-row two. -/
theorem exportCSV_claim_counterexample :
    (splitLines (exportCSV [sampleRow])).head? = some csvHeader ∧
    csvHeader ≠ claimedHeader ∧
    (splitLines (exportCSV [sampleNewlineRow])).length ≠ 1 + 1 := by
  refine ⟨by decide, by decide, by decide⟩
